import Mathlib

/-!
Verification development for the transaction-construction pipeline in
`src/src/main.rs`: the data model of programmable transactions, the
transaction builder, and the concrete construction performed by `main`,
shallowly embedded in Lean. Object identifiers, versions and digests are
modelled as natural numbers; the builder and payload packaging, whose code
lives in the SDK rather than in this repository, are modelled from the
specification (each such definition is marked in its doc comment).
-/

/-- An object reference, Rust `ObjectRef = (ObjectID, SequenceNumber, ObjectDigest)`:
id, version and content digest of a pinned object snapshot. -/
structure ObjectRef where
  id : Nat
  version : Nat
  digest : Nat
  deriving DecidableEq, Repr

/-- Rust `ObjectArg`: how an object is referenced as a transaction input,
either a fully pinned owned/immutable snapshot or a shared object carrying
its initial shared version and a mutability flag. -/
inductive ObjectArg where
  | immOrOwnedObject (ref : ObjectRef)
  | sharedObject (id : Nat) (initial_shared_version : Nat) (mutable : Bool)
  deriving DecidableEq, Repr

/-- Rust `CallArg`: one slot of the transaction's input list, holding either
an object reference or a pure literal value (modelled as a byte list). -/
inductive CallArg where
  | object (arg : ObjectArg)
  | pure (bytes : List Nat)
  deriving DecidableEq, Repr

/-- Rust `Argument`: a reference used inside a command, into the input list
(`Input`), a prior command's result (`Result`/`NestedResult`), or the gas coin. -/
inductive Argument where
  | gasCoin
  | input (ix : Nat)
  | result (ix : Nat)
  | nestedResult (ix : Nat) (jx : Nat)
  deriving DecidableEq, Repr

/-- Rust `ProgrammableMoveCall`: a package-qualified, named function call with
type arguments and value arguments. -/
structure ProgrammableMoveCall where
  package : Nat
  module : String
  function : String
  type_arguments : List String
  arguments : List Argument
  deriving DecidableEq, Repr

/-- Rust `Command`, restricted to the variants exercised by this repository:
`MoveCall` and `MakeMoveVec`. -/
inductive Command where
  | moveCall (call : ProgrammableMoveCall)
  | makeMoveVec (ty : Option String) (args : List Argument)
  deriving DecidableEq, Repr

/-- The arguments declared by a command. -/
def Command.args : Command → List Argument
  | .moveCall call => call.arguments
  | .makeMoveVec _ args => args

/-- The finished, immutable transaction plan: ordered input list plus ordered
command list (Rust `ProgrammableTransaction`). -/
structure ProgrammableTransaction where
  inputs : List CallArg
  commands : List Command
  deriving DecidableEq, Repr

/-- Modelled from the spec: `BuildError` — a structurally invalid graph is a
build-time failure; `InvalidArgumentReference` signals a forward or
out-of-range argument reference. -/
inductive BuildError where
  | invalidArgumentReference
  deriving DecidableEq, Repr

/-- Modelled from the spec: the transaction builder accumulates an ordered
input list and an ordered command list (`ProgrammableTransactionBuilder` of
the SDK is not part of this repository's sources). -/
structure ProgrammableTransactionBuilder where
  inputs : List CallArg
  commands : List Command
  deriving DecidableEq, Repr

/-- A fresh, empty builder (Rust `ProgrammableTransactionBuilder::new()`). -/
def ProgrammableTransactionBuilder.new : ProgrammableTransactionBuilder :=
  ⟨[], []⟩

/-- Modelled from the spec: `addInput(value) -> InputIndex` appends to the
input list and returns the assigned zero-based index. -/
def ProgrammableTransactionBuilder.input
    (b : ProgrammableTransactionBuilder) (c : CallArg) :
    ProgrammableTransactionBuilder × Nat :=
  (⟨b.inputs ++ [c], b.commands⟩, b.inputs.length)

/-- Whether an argument references only already-added inputs and commands,
given the current input count and command count. -/
def argOk (numInputs numCommands : Nat) : Argument → Bool
  | .gasCoin => true
  | .input i => i < numInputs
  | .result j => j < numCommands
  | .nestedResult j _ => j < numCommands

/-- Modelled from the spec: `addCommand(command)` bounds-checks the command's
declared arguments against the current list lengths, appends the command on
success and returns its zero-based index, and fails with
`BuildError::InvalidArgumentReference` otherwise. -/
def ProgrammableTransactionBuilder.command
    (b : ProgrammableTransactionBuilder) (c : Command) :
    Except BuildError (ProgrammableTransactionBuilder × Nat) :=
  if c.args.all (argOk b.inputs.length b.commands.length) then
    Except.ok (⟨b.inputs, b.commands ++ [c]⟩, b.commands.length)
  else
    Except.error BuildError.invalidArgumentReference

/-- The source discards the value returned by `ptb.command(..)`; under the
spec-modelled `command`, a failed add leaves the builder unchanged. -/
def ProgrammableTransactionBuilder.commandIgnoringResult
    (b : ProgrammableTransactionBuilder) (c : Command) :
    ProgrammableTransactionBuilder :=
  match b.command c with
  | Except.ok p => p.1
  | Except.error _ => b

/-- Modelled from the spec: `finish()` freezes the accumulated lists into an
immutable plan. -/
def ProgrammableTransactionBuilder.finish
    (b : ProgrammableTransactionBuilder) : ProgrammableTransaction :=
  ⟨b.inputs, b.commands⟩

/-- Resolve an `Input` argument against a plan's input list. -/
def resolveInput (pt : ProgrammableTransaction) : Argument → Option CallArg
  | .input i => pt.inputs.get? i
  | _ => none

/-- Modelled from the spec: `TransactionPayload` — plan plus sender identity,
gas object references, fee budget and reference price (the SDK type
`TransactionData` is not part of this repository's sources). -/
structure TransactionData where
  sender : Nat
  gas_payment : List ObjectRef
  pt : ProgrammableTransaction
  gas_budget : Nat
  gas_price : Nat
  deriving DecidableEq, Repr

/-- Modelled from the spec: `package(plan, sender, gasRefs, budget, price) ->
TransactionPayload` is pure packaging; argument order follows the call in
`src/src/main.rs` lines 144-150. -/
def TransactionData.new_programmable (sender : Nat) (gas_payment : List ObjectRef)
    (pt : ProgrammableTransaction) (gas_budget : Nat) (gas_price : Nat) :
    TransactionData :=
  ⟨sender, gas_payment, pt, gas_budget, gas_price⟩

/-- Object metadata returned by a read (the fields of `SuiObjectData` the
program uses: version and digest). -/
structure SuiObjectData where
  version : Nat
  digest : Nat
  deriving DecidableEq, Repr

/-- Rust `SuiObjectResponse`: its `data` field is optional. -/
structure SuiObjectResponse where
  data : Option SuiObjectData
  deriving DecidableEq, Repr

/-- A coin as returned by `get_coins`: object reference fields plus a balance. -/
structure Coin where
  coin_object_id : Nat
  version : Nat
  digest : Nat
  balance : Nat
  deriving DecidableEq, Repr

/-- Rust `Coin::object_ref()`: the coin's object reference (ignores balance). -/
def Coin.object_ref (c : Coin) : ObjectRef :=
  ⟨c.coin_object_id, c.version, c.digest⟩

/-- Modelled from the spec: a typed failure of a ledger read
(`ResolutionError::NotFound` / `ResolutionError::Unreadable`). -/
inductive RpcError where
  | notFound
  | unreadable
  deriving DecidableEq, Repr

/-- The outcome of running the embedded program fragment: a value, a typed
error propagated with `?`, or an abort caused by `Option::unwrap()` on `None`. -/
inductive Outcome (α : Type) where
  | ok (a : α)
  | typedError (e : RpcError)
  | panicked
  deriving DecidableEq, Repr

/-- The environment of the run: the sender address from `setup_for_write`,
the `get_coins` response, the `get_object_with_options` responses keyed by
object id, and the `get_reference_gas_price` response. -/
structure Env where
  sender : Nat
  coins : Except RpcError (List Coin)
  objects : Nat → Except RpcError SuiObjectResponse
  reference_gas_price : Except RpcError Nat

/-- The game-room object id from `src/src/main.rs` line 58. -/
def game_room_id : Nat :=
  0x52509952e7b80b08880238e9737e8f70e223418816e5a85bf82575ef84ecc545

/-- The queried object id from `src/src/main.rs` line 61. -/
def object_id : Nat :=
  0xb28e2aa6a21db55873a1b81983cbd19544459971b67ba2ddbd7b8d6575d7c2d1

/-- The game-card object id from `src/src/main.rs` line 90. -/
def game_card_id : Nat :=
  0x440b328ba3c90f203f439f6fc4c5aa40b7ca41d28317d5bb9b6c0207cfebc693

/-- The package id from `src/src/main.rs` line 125. -/
def package_id : Nat :=
  0xc74620c25579b75ac8f6d0d670a4663944ff7f29d6e856f6b33e0a35a34c5a06

/-- The `MakeMoveVec` command added at `src/src/main.rs` lines 118-120. -/
def makeMoveVecCmd : Command :=
  Command.makeMoveVec none [Argument.input 1]

/-- The `MoveCall` command added at `src/src/main.rs` lines 123-134. -/
def moveCallCmd : Command :=
  Command.moveCall
    ⟨package_id, "gamecards", "create_room", [],
      [Argument.input 0, Argument.result 0]⟩

/-- Shallow embedding of `main` in `src/src/main.rs`, from the `get_coins`
call up to the construction of `tx_data` (signing and network submission lie
outside the embedded fragment). Each `?` on an RPC call becomes a
`typedError` outcome; each `Option::unwrap()` on `None` becomes `panicked`. -/
def mainTx (env : Env) : Outcome TransactionData :=
  match env.coins with
  | Except.error e => Outcome.typedError e
  | Except.ok coins =>
    match coins with
    | [] => Outcome.panicked
    | coin :: _ =>
      let ptb := ProgrammableTransactionBuilder.new
      match env.objects object_id with
      | Except.error e => Outcome.typedError e
      | Except.ok object =>
        match object.data with
        | none => Outcome.panicked
        | some data =>
          let object_version := data.version
          let game_room_input := CallArg.object
            (ObjectArg.sharedObject game_room_id object_version true)
          let ptb := (ptb.input game_room_input).1
          match env.objects game_card_id with
          | Except.error e => Outcome.typedError e
          | Except.ok game_card_object =>
            match game_card_object.data with
            | none => Outcome.panicked
            | some card_data =>
              let game_card_object_ref : ObjectRef :=
                ⟨game_card_id, card_data.version, card_data.digest⟩
              let game_card_input := CallArg.object
                (ObjectArg.immOrOwnedObject game_card_object_ref)
              let ptb := (ptb.input game_card_input).1
              let ptb := ptb.commandIgnoringResult makeMoveVecCmd
              let ptb := ptb.commandIgnoringResult moveCallCmd
              let builder := ptb.finish
              let gas_budget := 10000000
              match env.reference_gas_price with
              | Except.error e => Outcome.typedError e
              | Except.ok gas_price =>
                Outcome.ok (TransactionData.new_programmable env.sender
                  [coin.object_ref] builder gas_budget gas_price)

/-- One add call on the builder, in the spec's API vocabulary. -/
inductive Op where
  | addInput (c : CallArg)
  | addCommand (c : Command)

/-- Run a sequence of add calls on a builder, collecting the final builder,
the indices returned by the input adds, and the indices returned by the
successful command adds (a failed command add returns no index and leaves
the builder unchanged). -/
def runOps : List Op → ProgrammableTransactionBuilder →
    ProgrammableTransactionBuilder × List Nat × List Nat
  | [], b => (b, [], [])
  | Op.addInput c :: ops, b =>
    let r := b.input c
    let t := runOps ops r.1
    (t.1, r.2 :: t.2.1, t.2.2)
  | Op.addCommand c :: ops, b =>
    match b.command c with
    | Except.ok r =>
      let t := runOps ops r.1
      (t.1, t.2.1, r.2 :: t.2.2)
    | Except.error _ => runOps ops b

/-- A `Result`/`NestedResult` argument references a command index strictly
below `i`; other arguments are unconstrained. -/
def resultRefsBelow (i : Nat) : Argument → Prop
  | Argument.result j => j < i
  | Argument.nestedResult j _ => j < i
  | _ => True

/-- No command references its own result or a later command's result: every
`Result`/`NestedResult` argument of the command at position `i` names a
command index strictly below `i`. -/
def noForwardRefs (cmds : List Command) : Prop :=
  ∀ i : Fin cmds.length, ∀ arg ∈ (cmds.get i).args, resultRefsBelow i.val arg

/-- The payload `mainTx` constructs from the head coin, the two metadata
records and the gas price. -/
def expectedTd (sender : Nat) (coin : Coin) (data card_data : SuiObjectData)
    (gas_price : Nat) : TransactionData :=
  ⟨sender, [coin.object_ref],
   ⟨[CallArg.object (ObjectArg.sharedObject game_room_id data.version true),
     CallArg.object (ObjectArg.immOrOwnedObject
       ⟨game_card_id, card_data.version, card_data.digest⟩)],
    [makeMoveVecCmd, moveCallCmd]⟩,
   10000000, gas_price⟩

theorem mainTx_ok_cases (env : Env) (td : TransactionData)
    (h : mainTx env = Outcome.ok td) :
    ∃ coin rest data card_data gp respRoom respCard,
      env.coins = Except.ok (coin :: rest) ∧
      env.objects object_id = Except.ok respRoom ∧
      respRoom.data = some data ∧
      env.objects game_card_id = Except.ok respCard ∧
      respCard.data = some card_data ∧
      env.reference_gas_price = Except.ok gp ∧
      td = expectedTd env.sender coin data card_data gp := by
  unfold mainTx at h
  split at h
  · exact Outcome.noConfusion h
  · split at h
    · exact Outcome.noConfusion h
    · split at h
      · exact Outcome.noConfusion h
      · split at h
        · exact Outcome.noConfusion h
        · split at h
          · exact Outcome.noConfusion h
          · split at h
            · exact Outcome.noConfusion h
            · split at h
              · exact Outcome.noConfusion h
              · exact ⟨_, _, _, _, _, _, _, by assumption, by assumption,
                  by assumption, by assumption, by assumption, by assumption,
                  (Outcome.ok.inj h).symm⟩

theorem runOps_inputIdxs (ops : List Op) :
    ∀ b : ProgrammableTransactionBuilder,
      (runOps ops b).2.1 =
        List.range' b.inputs.length (runOps ops b).2.1.length := by
  induction ops with
  | nil => intro b; simp [runOps]
  | cons op ops ih =>
    intro b
    cases op with
    | addInput c =>
      simp only [runOps, ProgrammableTransactionBuilder.input]
      rw [List.length_cons, List.range'_succ]
      have h := ih ⟨b.inputs ++ [c], b.commands⟩
      simp only [List.length_append, List.length_singleton] at h
      exact congrArg _ h
    | addCommand c =>
      simp only [runOps]
      cases hc : b.command c with
      | ok r =>
        have hr : r.1.inputs = b.inputs := by
          unfold ProgrammableTransactionBuilder.command at hc
          split at hc
          · cases hc; rfl
          · exact Except.noConfusion hc
        simpa [hr] using ih r.1
      | error e => exact ih b

theorem runOps_cmdIdxs (ops : List Op) :
    ∀ b : ProgrammableTransactionBuilder,
      (runOps ops b).2.2 =
        List.range' b.commands.length (runOps ops b).2.2.length := by
  induction ops with
  | nil => intro b; simp [runOps]
  | cons op ops ih =>
    intro b
    cases op with
    | addInput c =>
      simp only [runOps, ProgrammableTransactionBuilder.input]
      exact ih ⟨b.inputs ++ [c], b.commands⟩
    | addCommand c =>
      simp only [runOps]
      cases hc : b.command c with
      | ok r =>
        have hr : r.1.commands = b.commands ++ [c] ∧ r.2 = b.commands.length := by
          unfold ProgrammableTransactionBuilder.command at hc
          split at hc
          · cases hc; exact ⟨rfl, rfl⟩
          · exact Except.noConfusion hc
        have h := ih r.1
        rw [hr.1] at h
        simp only [List.length_append, List.length_singleton] at h
        simp only [List.length_cons, List.range'_succ]
        rw [hr.2, ← h]
      | error e => exact ih b

theorem argOk_resultRefsBelow {nI nC : Nat} {a : Argument}
    (h : argOk nI nC a = true) : resultRefsBelow nC a := by
  cases a with
  | gasCoin => trivial
  | input i => trivial
  | result j => simpa [argOk, resultRefsBelow] using h
  | nestedResult j k => simpa [argOk, resultRefsBelow] using h

theorem noForwardRefs_append {cmds : List Command} {c : Command}
    (h : noForwardRefs cmds)
    (hc : ∀ a ∈ c.args, resultRefsBelow cmds.length a) :
    noForwardRefs (cmds ++ [c]) := by
  intro i arg harg
  rcases Nat.lt_or_ge i.val cmds.length with hlt | hge
  · have hg : (cmds ++ [c]).get i = cmds.get ⟨i.val, hlt⟩ := by
      rw [List.get_eq_getElem, List.get_eq_getElem, List.getElem_append_left]
    rw [hg] at harg
    exact h ⟨i.val, hlt⟩ arg harg
  · have hlen : i.val = cmds.length := by
      have hub := i.isLt
      simp only [List.length_append, List.length_singleton] at hub
      omega
    have hg : (cmds ++ [c]).get i = c := by
      rw [List.get_eq_getElem, List.getElem_append_right hge]
      simp [hlen]
    rw [hg] at harg
    rw [hlen]
    exact hc arg harg

theorem runOps_noForwardRefs (ops : List Op) :
    ∀ b : ProgrammableTransactionBuilder, noForwardRefs b.commands →
      noForwardRefs ((runOps ops b).1).commands := by
  induction ops with
  | nil => intro b hb; exact hb
  | cons op ops ih =>
    intro b hb
    cases op with
    | addInput c => exact ih _ hb
    | addCommand c =>
      simp only [runOps]
      cases hc : b.command c with
      | ok r =>
        apply ih
        unfold ProgrammableTransactionBuilder.command at hc
        split at hc
        case isTrue hall =>
          cases hc
          exact noForwardRefs_append hb (fun a ha =>
            argOk_resultRefsBelow (List.all_eq_true.mp hall a ha))
        case isFalse => exact Except.noConfusion hc
      | error e => exact ih _ hb

theorem noForwardRefs_nil : noForwardRefs [] := by
  intro i
  exact absurd i.isLt (by simp)

/-- A concrete coin for the sample environment. -/
def coinC : Coin := ⟨0xc0ffee, 7, 11, 5⟩

/-- A concrete environment in which every remote read succeeds: the metadata
stored under `object_id` has version 42, the game-card metadata has
version 5 and digest 77, and `game_room_id` itself resolves to metadata with
version 9999 (to witness that this metadata is never consulted). -/
def envC : Env :=
  ⟨0xa11ce, Except.ok [coinC],
   fun oid =>
     if oid = object_id then Except.ok ⟨some ⟨42, 1001⟩⟩
     else if oid = game_card_id then Except.ok ⟨some ⟨5, 77⟩⟩
     else if oid = game_room_id then Except.ok ⟨some ⟨9999, 8888⟩⟩
     else Except.error RpcError.notFound,
   Except.ok 750⟩

/-- The payload `mainTx` produces on `envC`. -/
def tdC : TransactionData :=
  ⟨0xa11ce, [⟨0xc0ffee, 7, 11⟩],
   ⟨[CallArg.object (ObjectArg.sharedObject game_room_id 42 true),
     CallArg.object (ObjectArg.immOrOwnedObject ⟨game_card_id, 5, 77⟩)],
    [makeMoveVecCmd, moveCallCmd]⟩,
   10000000, 750⟩


/-- Serialization of a Bool into the token stream. -/
def encBool : Bool → List Nat
  | false => [0]
  | true => [1]

/-- Decoder for `encBool`; returns the value and the remaining stream. -/
def decBool : List Nat → Option (Bool × List Nat)
  | 0 :: rest => some (false, rest)
  | 1 :: rest => some (true, rest)
  | _ => none

/-- Serialization of a string: length followed by the code points. -/
def encString (s : String) : List Nat :=
  s.data.length :: s.data.map Char.toNat

/-- Decode `k` characters from the stream. -/
def decCharsAux : Nat → List Nat → Option (List Char × List Nat)
  | 0, l => some ([], l)
  | _ + 1, [] => none
  | k + 1, n :: rest =>
    match decCharsAux k rest with
    | none => none
    | some (cs, l) => some (Char.ofNat n :: cs, l)

/-- Decoder for `encString`. -/
def decString : List Nat → Option (String × List Nat)
  | [] => none
  | k :: rest =>
    match decCharsAux k rest with
    | none => none
    | some (cs, l) => some (String.mk cs, l)

/-- Serialization of a list: length followed by the serialized elements. -/
def encList (f : α → List Nat) (xs : List α) : List Nat :=
  xs.length :: (xs.map f).flatten

/-- Decode `k` elements from the stream with the element decoder `g`. -/
def decListAux (g : List Nat → Option (α × List Nat)) :
    Nat → List Nat → Option (List α × List Nat)
  | 0, l => some ([], l)
  | k + 1, l =>
    match g l with
    | none => none
    | some (a, l₁) =>
      match decListAux g k l₁ with
      | none => none
      | some (as, l₂) => some (a :: as, l₂)

/-- Decoder for `encList`. -/
def decList (g : List Nat → Option (α × List Nat)) :
    List Nat → Option (List α × List Nat)
  | [] => none
  | k :: rest => decListAux g k rest

theorem decBool_enc (b : Bool) (rest : List Nat) :
    decBool (encBool b ++ rest) = some (b, rest) := by
  cases b <;> rfl

theorem decCharsAux_enc (cs : List Char) :
    ∀ rest : List Nat,
      decCharsAux cs.length (cs.map Char.toNat ++ rest) = some (cs, rest) := by
  induction cs with
  | nil => intro rest; rfl
  | cons c cs ih =>
    intro rest
    simp only [List.map_cons, List.length_cons, List.cons_append, decCharsAux,
      List.append_eq, ih, Char.ofNat_toNat]

theorem decString_enc (s : String) (rest : List Nat) :
    decString (encString s ++ rest) = some (s, rest) := by
  cases s with
  | mk cs =>
    simp only [encString, List.cons_append, decString, decCharsAux_enc]

theorem decList_enc {α : Type} {g : List Nat → Option (α × List Nat)}
    {f : α → List Nat} (hg : ∀ a rest, g (f a ++ rest) = some (a, rest)) :
    ∀ (xs : List α) (rest : List Nat),
      decList g (encList f xs ++ rest) = some (xs, rest) := by
  have aux : ∀ (xs : List α) (rest : List Nat),
      decListAux g xs.length ((xs.map f).flatten ++ rest) = some (xs, rest) := by
    intro xs
    induction xs with
    | nil => intro rest; rfl
    | cons x xs ih =>
      intro rest
      simp only [List.map_cons, List.flatten_cons, List.length_cons,
        List.append_assoc, decListAux, hg, ih]
  intro xs rest
  simp only [encList, List.cons_append, decList, aux]

/-- Serialization of an argument reference. -/
def encArgument : Argument → List Nat
  | .gasCoin => [0]
  | .input i => [1, i]
  | .result j => [2, j]
  | .nestedResult j k => [3, j, k]

/-- Decoder for `encArgument`. -/
def decArgument : List Nat → Option (Argument × List Nat)
  | 0 :: rest => some (Argument.gasCoin, rest)
  | 1 :: i :: rest => some (Argument.input i, rest)
  | 2 :: j :: rest => some (Argument.result j, rest)
  | 3 :: j :: k :: rest => some (Argument.nestedResult j k, rest)
  | _ => none

theorem decArgument_enc (a : Argument) (rest : List Nat) :
    decArgument (encArgument a ++ rest) = some (a, rest) := by
  cases a <;> rfl

/-- Serialization of an object reference. -/
def encObjectRef (r : ObjectRef) : List Nat :=
  [r.id, r.version, r.digest]

/-- Decoder for `encObjectRef`. -/
def decObjectRef : List Nat → Option (ObjectRef × List Nat)
  | i :: v :: d :: rest => some (⟨i, v, d⟩, rest)
  | _ => none

theorem decObjectRef_enc (r : ObjectRef) (rest : List Nat) :
    decObjectRef (encObjectRef r ++ rest) = some (r, rest) := by
  cases r; rfl

/-- Serialization of an object input. -/
def encObjectArg : ObjectArg → List Nat
  | .immOrOwnedObject r => 0 :: encObjectRef r
  | .sharedObject i v m => 1 :: i :: v :: encBool m

/-- Decoder for `encObjectArg`. -/
def decObjectArg : List Nat → Option (ObjectArg × List Nat)
  | 0 :: rest =>
    match decObjectRef rest with
    | none => none
    | some (r, l) => some (ObjectArg.immOrOwnedObject r, l)
  | 1 :: i :: v :: rest =>
    match decBool rest with
    | none => none
    | some (m, l) => some (ObjectArg.sharedObject i v m, l)
  | _ => none

theorem decObjectArg_enc (a : ObjectArg) (rest : List Nat) :
    decObjectArg (encObjectArg a ++ rest) = some (a, rest) := by
  cases a with
  | immOrOwnedObject r => cases r; rfl
  | sharedObject i v m => cases m <;> rfl

/-- Serialization of a single number. -/
def encNat (n : Nat) : List Nat := [n]

/-- Decoder for `encNat`. -/
def decNat : List Nat → Option (Nat × List Nat)
  | n :: rest => some (n, rest)
  | _ => none

theorem decNat_enc (n : Nat) (rest : List Nat) :
    decNat (encNat n ++ rest) = some (n, rest) := rfl

/-- Serialization of a transaction input slot. -/
def encCallArg : CallArg → List Nat
  | .object a => 0 :: encObjectArg a
  | .pure bs => 1 :: encList encNat bs

/-- Decoder for `encCallArg`. -/
def decCallArg : List Nat → Option (CallArg × List Nat)
  | 0 :: rest =>
    match decObjectArg rest with
    | none => none
    | some (a, l) => some (CallArg.object a, l)
  | 1 :: rest =>
    match decList decNat rest with
    | none => none
    | some (bs, l) => some (CallArg.pure bs, l)
  | _ => none

theorem decCallArg_enc (c : CallArg) (rest : List Nat) :
    decCallArg (encCallArg c ++ rest) = some (c, rest) := by
  cases c with
  | object a =>
    simp only [encCallArg, List.cons_append, decCallArg, decObjectArg_enc a rest]
  | pure bs =>
    simp only [encCallArg, List.cons_append, decCallArg,
      decList_enc decNat_enc bs rest]

/-- Serialization of an optional element type tag. -/
def encOptionString : Option String → List Nat
  | none => [0]
  | some s => 1 :: encString s

/-- Decoder for `encOptionString`. -/
def decOptionString : List Nat → Option (Option String × List Nat)
  | 0 :: rest => some (none, rest)
  | 1 :: rest =>
    match decString rest with
    | none => none
    | some (s, l) => some (some s, l)
  | _ => none

theorem decOptionString_enc (o : Option String) (rest : List Nat) :
    decOptionString (encOptionString o ++ rest) = some (o, rest) := by
  cases o with
  | none => rfl
  | some s =>
    simp only [encOptionString, List.cons_append, decOptionString,
      decString_enc s rest]

/-- Serialization of a Move call. -/
def encPMC (p : ProgrammableMoveCall) : List Nat :=
  p.package :: (encString p.module ++ encString p.function ++
    encList encString p.type_arguments ++ encList encArgument p.arguments)

/-- Decoder for `encPMC`. -/
def decPMC : List Nat → Option (ProgrammableMoveCall × List Nat)
  | [] => none
  | pkg :: l₀ =>
    match decString l₀ with
    | none => none
    | some (m, l₁) =>
      match decString l₁ with
      | none => none
      | some (f, l₂) =>
        match decList decString l₂ with
        | none => none
        | some (tys, l₃) =>
          match decList decArgument l₃ with
          | none => none
          | some (args, l₄) => some (⟨pkg, m, f, tys, args⟩, l₄)

theorem decPMC_enc (p : ProgrammableMoveCall) (rest : List Nat) :
    decPMC (encPMC p ++ rest) = some (p, rest) := by
  cases p with
  | mk pkg m f tys args =>
    simp only [encPMC, List.cons_append, List.append_assoc, decPMC,
      decString_enc, decList_enc decString_enc, decList_enc decArgument_enc]

/-- Serialization of a command. -/
def encCommand : Command → List Nat
  | .moveCall p => 0 :: encPMC p
  | .makeMoveVec ty args => 1 :: (encOptionString ty ++ encList encArgument args)

/-- Decoder for `encCommand`. -/
def decCommand : List Nat → Option (Command × List Nat)
  | 0 :: rest =>
    match decPMC rest with
    | none => none
    | some (p, l) => some (Command.moveCall p, l)
  | 1 :: rest =>
    match decOptionString rest with
    | none => none
    | some (ty, l₁) =>
      match decList decArgument l₁ with
      | none => none
      | some (args, l₂) => some (Command.makeMoveVec ty args, l₂)
  | _ => none

theorem decCommand_enc (c : Command) (rest : List Nat) :
    decCommand (encCommand c ++ rest) = some (c, rest) := by
  cases c with
  | moveCall p =>
    simp only [encCommand, List.cons_append, decCommand, decPMC_enc p rest]
  | makeMoveVec ty args =>
    simp only [encCommand, List.cons_append, List.append_assoc, decCommand,
      decOptionString_enc, decList_enc decArgument_enc]

/-- Deterministic serialization of a transaction payload: sender, gas object
references, the plan's input list and command list in order, budget, price. -/
def serialize (td : TransactionData) : List Nat :=
  td.sender :: (encList encObjectRef td.gas_payment ++
    encList encCallArg td.pt.inputs ++ encList encCommand td.pt.commands ++
    [td.gas_budget, td.gas_price])

/-- Decoder for `serialize`; requires the whole stream to be consumed. -/
def deserialize : List Nat → Option TransactionData
  | [] => none
  | sender :: l₀ =>
    match decList decObjectRef l₀ with
    | none => none
    | some (gas, l₁) =>
      match decList decCallArg l₁ with
      | none => none
      | some (ins, l₂) =>
        match decList decCommand l₂ with
        | none => none
        | some (cmds, l₃) =>
          match l₃ with
          | [budget, price] => some ⟨sender, gas, ⟨ins, cmds⟩, budget, price⟩
          | _ => none

theorem deserialize_serialize (td : TransactionData) :
    deserialize (serialize td) = some td := by
  cases td with
  | mk sender gas pt budget price =>
    cases pt with
    | mk ins cmds =>
      simp only [serialize, List.append_assoc, deserialize,
        decList_enc decObjectRef_enc, decList_enc decCallArg_enc,
        decList_enc decCommand_enc]

/-- Like `envC`, except that the metadata stored under `game_room_id` differs
(everything else is identical pointwise). -/
def envC2 : Env :=
  ⟨0xa11ce, Except.ok [coinC],
   fun oid =>
     if oid = object_id then Except.ok ⟨some ⟨42, 1001⟩⟩
     else if oid = game_card_id then Except.ok ⟨some ⟨5, 77⟩⟩
     else if oid = game_room_id then Except.ok ⟨some ⟨1, 2⟩⟩
     else Except.error RpcError.notFound,
   Except.ok 750⟩

/-- An environment whose first (and only) coin is the game-card object itself,
with a balance of 5, far below the fee budget. -/
def envGasOverlap : Env :=
  ⟨0xa11ce, Except.ok [⟨game_card_id, 5, 77, 5⟩],
   fun oid =>
     if oid = object_id then Except.ok ⟨some ⟨42, 1001⟩⟩
     else if oid = game_card_id then Except.ok ⟨some ⟨5, 77⟩⟩
     else Except.error RpcError.notFound,
   Except.ok 750⟩

/-- The payload `mainTx` produces on `envGasOverlap`. -/
def tdGasOverlap : TransactionData :=
  expectedTd 0xa11ce ⟨game_card_id, 5, 77, 5⟩ ⟨42, 1001⟩ ⟨5, 77⟩ 750

/-- An environment whose coin query succeeds with an empty coin list. -/
def envEmptyCoins : Env :=
  ⟨0xa11ce, Except.ok [],
   fun _ => Except.error RpcError.notFound, Except.ok 750⟩

/-- C1: on a fresh builder the indices assigned to inputs and to command
results are dense, zero-based and strictly increasing in call order; in the
program's construction the shared game-room input sits at index 0, the owned
game-card input at index 1, the `MakeMoveVec` command at index 0 and the
`MoveCall` command at index 1. -/
theorem indices_dense_zero_based_increasing :
    (∀ ops : List Op,
      (runOps ops ProgrammableTransactionBuilder.new).2.1 =
        List.range (runOps ops ProgrammableTransactionBuilder.new).2.1.length ∧
      (runOps ops ProgrammableTransactionBuilder.new).2.2 =
        List.range (runOps ops ProgrammableTransactionBuilder.new).2.2.length) ∧
    (∀ env td, mainTx env = Outcome.ok td →
      ∃ v ref,
        td.pt.inputs.get? 0 =
          some (CallArg.object (ObjectArg.sharedObject game_room_id v true)) ∧
        td.pt.inputs.get? 1 =
          some (CallArg.object (ObjectArg.immOrOwnedObject ref)) ∧
        ref.id = game_card_id ∧
        td.pt.commands.get? 0 = some makeMoveVecCmd ∧
        td.pt.commands.get? 1 = some moveCallCmd) := by
  constructor
  · intro ops
    constructor
    · rw [List.range_eq_range']
      exact runOps_inputIdxs ops ProgrammableTransactionBuilder.new
    · rw [List.range_eq_range']
      exact runOps_cmdIdxs ops ProgrammableTransactionBuilder.new
  · intro env td h
    obtain ⟨coin, rest, data, card, gp, r1, r2, hcoins, ho1, hd1, ho2, hd2,
      hgp, htd⟩ := mainTx_ok_cases env td h
    subst htd
    exact ⟨data.version, ⟨game_card_id, card.version, card.digest⟩,
      rfl, rfl, rfl, rfl, rfl⟩

/-- Closed instance of `indices_dense_zero_based_increasing` on the concrete
environment `envC`. -/
theorem indices_dense_zero_based_increasing_witness :
    mainTx envC = Outcome.ok tdC ∧
    (∃ v ref,
      tdC.pt.inputs.get? 0 =
        some (CallArg.object (ObjectArg.sharedObject game_room_id v true)) ∧
      tdC.pt.inputs.get? 1 =
        some (CallArg.object (ObjectArg.immOrOwnedObject ref)) ∧
      ref.id = game_card_id ∧
      tdC.pt.commands.get? 0 = some makeMoveVecCmd ∧
      tdC.pt.commands.get? 1 = some moveCallCmd) :=
  ⟨by decide, indices_dense_zero_based_increasing.2 envC tdC (by decide)⟩

/-- C2: adding a command with an input index at or above the current input
count, or a command-result index at or above the current command count, fails
at add-time with `InvalidArgumentReference`; the two commands the program
adds pass the bounds check at their call sites (two inputs present for the
first, two inputs and one command present for the second), so an `ok` run
carries exactly both commands. -/
theorem addCommand_bounds_checked :
    (∀ (b : ProgrammableTransactionBuilder) (c : Command) (i : Nat),
      Argument.input i ∈ c.args → b.inputs.length ≤ i →
        b.command c = Except.error BuildError.invalidArgumentReference) ∧
    (∀ (b : ProgrammableTransactionBuilder) (c : Command) (j : Nat),
      Argument.result j ∈ c.args → b.commands.length ≤ j →
        b.command c = Except.error BuildError.invalidArgumentReference) ∧
    (∀ i0 i1 : CallArg,
      (ProgrammableTransactionBuilder.mk [i0, i1] []).command makeMoveVecCmd =
        Except.ok (ProgrammableTransactionBuilder.mk [i0, i1] [makeMoveVecCmd], 0) ∧
      (ProgrammableTransactionBuilder.mk [i0, i1] [makeMoveVecCmd]).command
          moveCallCmd =
        Except.ok
          (ProgrammableTransactionBuilder.mk [i0, i1]
            [makeMoveVecCmd, moveCallCmd], 1)) ∧
    (∀ env td, mainTx env = Outcome.ok td →
      td.pt.commands = [makeMoveVecCmd, moveCallCmd]) := by
  refine ⟨?_, ?_, ?_, ?_⟩
  · intro b c i hmem hle
    have hfalse : c.args.all (argOk b.inputs.length b.commands.length) = false := by
      rw [List.all_eq_false]
      exact ⟨Argument.input i, hmem, by simp [argOk, Nat.not_lt.mpr hle]⟩
    simp [ProgrammableTransactionBuilder.command, hfalse]
  · intro b c j hmem hle
    have hfalse : c.args.all (argOk b.inputs.length b.commands.length) = false := by
      rw [List.all_eq_false]
      exact ⟨Argument.result j, hmem, by simp [argOk, Nat.not_lt.mpr hle]⟩
    simp [ProgrammableTransactionBuilder.command, hfalse]
  · intro i0 i1
    exact ⟨rfl, rfl⟩
  · intro env td h
    obtain ⟨coin, rest, data, card, gp, r1, r2, hcoins, ho1, hd1, ho2, hd2,
      hgp, htd⟩ := mainTx_ok_cases env td h
    subst htd
    rfl

/-- Closed instance of `addCommand_bounds_checked`: a command referencing
input 2 on a builder with two inputs fails, a command referencing result 0 on
a builder with no commands fails, and the `ok` run on `envC` carries both
program commands. -/
theorem addCommand_bounds_checked_witness :
    (ProgrammableTransactionBuilder.mk [CallArg.pure [1], CallArg.pure [2]]
        []).command (Command.makeMoveVec none [Argument.input 2]) =
      Except.error BuildError.invalidArgumentReference ∧
    (ProgrammableTransactionBuilder.mk [CallArg.pure [1], CallArg.pure [2]]
        []).command (Command.makeMoveVec none [Argument.result 0]) =
      Except.error BuildError.invalidArgumentReference ∧
    tdC.pt.commands = [makeMoveVecCmd, moveCallCmd] :=
  ⟨addCommand_bounds_checked.1
      (ProgrammableTransactionBuilder.mk [CallArg.pure [1], CallArg.pure [2]] [])
      (Command.makeMoveVec none [Argument.input 2]) 2 (by simp [Command.args])
      (by decide),
   addCommand_bounds_checked.2.1
      (ProgrammableTransactionBuilder.mk [CallArg.pure [1], CallArg.pure [2]] [])
      (Command.makeMoveVec none [Argument.result 0]) 0 (by simp [Command.args])
      (by decide),
   addCommand_bounds_checked.2.2.2 envC tdC (by decide)⟩

/-- C3: `finish` returns a plan whose input and command lists are exactly,
element for element and in order, the lists accumulated before the call;
builder operations only produce new builder values by appending (a plan
value already returned is a pure value and is unaffected by them); on an
`ok` run the plan holds exactly the two inputs and two commands added, in
addition order. -/
theorem finish_returns_exact_lists :
    (∀ b : ProgrammableTransactionBuilder,
      b.finish.inputs = b.inputs ∧ b.finish.commands = b.commands) ∧
    (∀ (b : ProgrammableTransactionBuilder) (c : CallArg),
      (b.input c).1.inputs = b.inputs ++ [c] ∧
      (b.input c).1.commands = b.commands) ∧
    (∀ (b : ProgrammableTransactionBuilder) (c : Command)
        (r : ProgrammableTransactionBuilder × Nat),
      b.command c = Except.ok r →
        r.1.inputs = b.inputs ∧ r.1.commands = b.commands ++ [c]) ∧
    (∀ env td, mainTx env = Outcome.ok td →
      ∃ v cv cd,
        td.pt.inputs =
          [CallArg.object (ObjectArg.sharedObject game_room_id v true),
           CallArg.object (ObjectArg.immOrOwnedObject ⟨game_card_id, cv, cd⟩)] ∧
        td.pt.commands = [makeMoveVecCmd, moveCallCmd]) := by
  refine ⟨fun b => ⟨rfl, rfl⟩, fun b c => ⟨rfl, rfl⟩, ?_, ?_⟩
  · intro b c r hc
    unfold ProgrammableTransactionBuilder.command at hc
    split at hc
    · cases hc; exact ⟨rfl, rfl⟩
    · exact Except.noConfusion hc
  · intro env td h
    obtain ⟨coin, rest, data, card, gp, r1, r2, hcoins, ho1, hd1, ho2, hd2,
      hgp, htd⟩ := mainTx_ok_cases env td h
    subst htd
    exact ⟨data.version, card.version, card.digest, rfl, rfl⟩

/-- Closed instance of `finish_returns_exact_lists` on `envC`. -/
theorem finish_returns_exact_lists_witness :
    (ProgrammableTransactionBuilder.new.finish.inputs = [] ∧
      ProgrammableTransactionBuilder.new.finish.commands = []) ∧
    (∃ v cv cd,
      tdC.pt.inputs =
        [CallArg.object (ObjectArg.sharedObject game_room_id v true),
         CallArg.object (ObjectArg.immOrOwnedObject ⟨game_card_id, cv, cd⟩)] ∧
      tdC.pt.commands = [makeMoveVecCmd, moveCallCmd]) :=
  ⟨finish_returns_exact_lists.1 ProgrammableTransactionBuilder.new,
   finish_returns_exact_lists.2.2.2 envC tdC (by decide)⟩

theorem noForwardRefs_program : noForwardRefs [makeMoveVecCmd, moveCallCmd] := by
  intro i arg harg
  match i with
  | ⟨0, _⟩ =>
    have : arg ∈ [Argument.input 1] := harg
    simp only [List.mem_singleton] at this
    subst this
    trivial
  | ⟨1, _⟩ =>
    have : arg ∈ [Argument.input 0, Argument.result 0] := harg
    simp only [List.mem_cons, List.mem_singleton, List.not_mem_nil,
      or_false] at this
    rcases this with h | h <;> subst h
    · trivial
    · exact Nat.zero_lt_one

/-- C4: in every plan produced from a fresh builder by a sequence of add
calls, each `Result`/`NestedResult` argument of the command at position `i`
names a command index strictly below `i` (declaration order is a topological
order, so the command graph is acyclic by construction); in the program's
plan the only `Result` argument is `Result(0)` inside command 1. -/
theorem plans_have_no_forward_refs :
    (∀ ops : List Op,
      noForwardRefs
        ((runOps ops ProgrammableTransactionBuilder.new).1.finish.commands)) ∧
    (∀ env td, mainTx env = Outcome.ok td →
      noForwardRefs td.pt.commands ∧
      td.pt.commands.get? 1 = some moveCallCmd ∧
      moveCallCmd.args = [Argument.input 0, Argument.result 0]) := by
  constructor
  · intro ops
    exact runOps_noForwardRefs ops ProgrammableTransactionBuilder.new
      noForwardRefs_nil
  · intro env td h
    obtain ⟨coin, rest, data, card, gp, r1, r2, hcoins, ho1, hd1, ho2, hd2,
      hgp, htd⟩ := mainTx_ok_cases env td h
    subst htd
    exact ⟨noForwardRefs_program, rfl, rfl⟩

/-- Closed instance of `plans_have_no_forward_refs`: the empty op sequence,
and the `ok` run on `envC`. -/
theorem plans_have_no_forward_refs_witness :
    noForwardRefs
      ((runOps [] ProgrammableTransactionBuilder.new).1.finish.commands) ∧
    (noForwardRefs tdC.pt.commands ∧
      tdC.pt.commands.get? 1 = some moveCallCmd ∧
      moveCallCmd.args = [Argument.input 0, Argument.result 0]) :=
  ⟨plans_have_no_forward_refs.1 [],
   plans_have_no_forward_refs.2 envC tdC (by decide)⟩

/-- C5: on every run in which the balance query returns a non-empty coin
list, the payload's gas reference is exactly the object reference of the
first coin; the head coin's balance is never consulted (changing it changes
nothing), the budget is the constant 10000000 regardless of that balance,
and a run whose gas coin is the very object used as the owned transaction
input still succeeds (no distinctness check). -/
theorem gas_is_first_coin_unchecked :
    (∀ env td coin rest, env.coins = Except.ok (coin :: rest) →
      mainTx env = Outcome.ok td → td.gas_payment = [coin.object_ref]) ∧
    (∀ (sender : Nat) (coin : Coin) (rest : List Coin)
        (objects : Nat → Except RpcError SuiObjectResponse)
        (gp : Except RpcError Nat) (b' : Nat),
      mainTx ⟨sender, Except.ok ({ coin with balance := b' } :: rest), objects, gp⟩ =
        mainTx ⟨sender, Except.ok (coin :: rest), objects, gp⟩) ∧
    (∀ env td, mainTx env = Outcome.ok td → td.gas_budget = 10000000) ∧
    (mainTx envGasOverlap = Outcome.ok tdGasOverlap ∧
      tdGasOverlap.gas_payment = [⟨game_card_id, 5, 77⟩] ∧
      tdGasOverlap.pt.inputs.get? 1 =
        some (CallArg.object (ObjectArg.immOrOwnedObject ⟨game_card_id, 5, 77⟩))) := by
  refine ⟨?_, ?_, ?_, by decide⟩
  · intro env td coin rest hcoins h
    obtain ⟨coin', rest', data, card, gp, r1, r2, hcoins', ho1, hd1, ho2, hd2,
      hgp, htd⟩ := mainTx_ok_cases env td h
    rw [hcoins] at hcoins'
    cases hcoins'
    subst htd
    rfl
  · intro sender coin rest objects gp b'
    cases coin
    rfl
  · intro env td h
    obtain ⟨coin, rest, data, card, gp, r1, r2, hcoins, ho1, hd1, ho2, hd2,
      hgp, htd⟩ := mainTx_ok_cases env td h
    subst htd
    rfl

/-- Closed instance of `gas_is_first_coin_unchecked` on `envC`. -/
theorem gas_is_first_coin_unchecked_witness :
    tdC.gas_payment = [coinC.object_ref] ∧
    mainTx ⟨0xa11ce, Except.ok [{ coinC with balance := 999 }], envC.objects,
        Except.ok 750⟩ =
      mainTx ⟨0xa11ce, Except.ok [coinC], envC.objects, Except.ok 750⟩ ∧
    tdC.gas_budget = 10000000 :=
  ⟨gas_is_first_coin_unchecked.1 envC tdC coinC [] rfl (by decide),
   gas_is_first_coin_unchecked.2.1 0xa11ce coinC [] envC.objects
     (Except.ok 750) 999,
   gas_is_first_coin_unchecked.2.2.1 envC tdC (by decide)⟩

/-- C6: serializing a transaction payload and deserializing the result yields
a payload equal to the original in all fields, with the input list and the
command list in their original order. -/
theorem payload_roundtrip (td : TransactionData) :
    deserialize (serialize td) = some td :=
  deserialize_serialize td

/-- C7 as stated is false on this program: the program's construction adds
two commands, so the finished plan's command list has length 2, not 1
(witnessed on the concrete environment `envC`). -/
theorem scenario_counterexample :
    mainTx envC = Outcome.ok tdC ∧ tdC.pt.inputs.length = 2 ∧
      tdC.pt.commands.length = 2 ∧ ¬ tdC.pt.commands.length = 1 := by
  decide

/-- C7 (amended): a builder loaded with one owned input, one shared input and
one invoke command referencing `Input(0)` and `Input(1)` finishes to a plan
with input list length 2 and command list length 1 whose command arguments
resolve to exactly those two inputs in declared order; the program's own
construction finishes to a plan with input list length 2 and command list
length 2. -/
theorem scenario_two_inputs_one_command :
    (∀ (r : ObjectRef) (sid sv : Nat) (m : Bool) (pkg : Nat) (mo fu : String)
        (tys : List String),
      (((ProgrammableTransactionBuilder.new.input
            (CallArg.object (ObjectArg.immOrOwnedObject r))).1.input
            (CallArg.object (ObjectArg.sharedObject sid sv m))).1.command
          (Command.moveCall
            ⟨pkg, mo, fu, tys, [Argument.input 0, Argument.input 1]⟩) =
        Except.ok
          (ProgrammableTransactionBuilder.mk
            [CallArg.object (ObjectArg.immOrOwnedObject r),
             CallArg.object (ObjectArg.sharedObject sid sv m)]
            [Command.moveCall
              ⟨pkg, mo, fu, tys, [Argument.input 0, Argument.input 1]⟩], 0)) ∧
      (ProgrammableTransactionBuilder.mk
          [CallArg.object (ObjectArg.immOrOwnedObject r),
           CallArg.object (ObjectArg.sharedObject sid sv m)]
          [Command.moveCall
            ⟨pkg, mo, fu, tys, [Argument.input 0, Argument.input 1]⟩]).finish.inputs.length = 2 ∧
      (ProgrammableTransactionBuilder.mk
          [CallArg.object (ObjectArg.immOrOwnedObject r),
           CallArg.object (ObjectArg.sharedObject sid sv m)]
          [Command.moveCall
            ⟨pkg, mo, fu, tys, [Argument.input 0, Argument.input 1]⟩]).finish.commands.length = 1 ∧
      (∀ pt, pt = (ProgrammableTransactionBuilder.mk
          [CallArg.object (ObjectArg.immOrOwnedObject r),
           CallArg.object (ObjectArg.sharedObject sid sv m)]
          [Command.moveCall
            ⟨pkg, mo, fu, tys, [Argument.input 0, Argument.input 1]⟩]).finish →
        (pt.commands.get? 0).map Command.args =
          some [Argument.input 0, Argument.input 1] ∧
        resolveInput pt (Argument.input 0) =
          some (CallArg.object (ObjectArg.immOrOwnedObject r)) ∧
        resolveInput pt (Argument.input 1) =
          some (CallArg.object (ObjectArg.sharedObject sid sv m)))) ∧
    (∀ env td, mainTx env = Outcome.ok td →
      td.pt.inputs.length = 2 ∧ td.pt.commands.length = 2) := by
  constructor
  · intro r sid sv m pkg mo fu tys
    refine ⟨rfl, rfl, rfl, ?_⟩
    intro pt hpt
    subst hpt
    exact ⟨rfl, rfl, rfl⟩
  · intro env td h
    obtain ⟨coin, rest, data, card, gp, r1, r2, hcoins, ho1, hd1, ho2, hd2,
      hgp, htd⟩ := mainTx_ok_cases env td h
    subst htd
    exact ⟨rfl, rfl⟩

/-- Closed instance of `scenario_two_inputs_one_command`: the generic
scenario at concrete values, and the program part on `envC`. -/
theorem scenario_two_inputs_one_command_witness :
    (ProgrammableTransactionBuilder.mk
        [CallArg.object (ObjectArg.immOrOwnedObject ⟨1, 5, 3⟩),
         CallArg.object (ObjectArg.sharedObject 2 3 true)]
        [Command.moveCall
          ⟨9, "m", "f", [], [Argument.input 0, Argument.input 1]⟩]).finish.commands.length = 1 ∧
    (tdC.pt.inputs.length = 2 ∧ tdC.pt.commands.length = 2) :=
  ⟨((scenario_two_inputs_one_command.1 ⟨1, 5, 3⟩ 2 3 true 9 "m" "f" []).2.2).1,
   scenario_two_inputs_one_command.2 envC tdC (by decide)⟩

/-- C8: packaging a plan into a payload is a pure, deterministic function of
its arguments — equal plans, senders, gas references, budgets and prices
yield equal payloads (in this embedding `new_programmable` is a total
function, so it performs no input/output by construction). -/
theorem packaging_deterministic (s s' : Nat) (g g' : List ObjectRef)
    (p p' : ProgrammableTransaction) (b b' pr pr' : Nat)
    (hs : s = s') (hg : g = g') (hp : p = p') (hb : b = b') (hpr : pr = pr') :
    TransactionData.new_programmable s g p b pr =
      TransactionData.new_programmable s' g' p' b' pr' := by
  subst hs
  subst hg
  subst hp
  subst hb
  subst hpr
  rfl

/-- Closed instance of `packaging_deterministic` at concrete arguments. -/
theorem packaging_deterministic_witness :
    TransactionData.new_programmable 1 [⟨4, 5, 6⟩] ⟨[], []⟩ 2 3 =
      TransactionData.new_programmable 1 [⟨4, 5, 6⟩] ⟨[], []⟩ 2 3 :=
  packaging_deterministic 1 1 [⟨4, 5, 6⟩] [⟨4, 5, 6⟩] ⟨[], []⟩ ⟨[], []⟩
    2 2 3 3 rfl rfl rfl rfl rfl

/-- C9 as stated is false on this program: on an environment whose coin query
succeeds with an empty list, the program aborts via `unwrap` (a panic), not a
typed error. -/
theorem typed_errors_counterexample :
    mainTx envEmptyCoins = Outcome.panicked ∧
    mainTx envEmptyCoins ≠ Outcome.typedError RpcError.notFound ∧
    mainTx envEmptyCoins ≠ Outcome.typedError RpcError.unreadable := by
  decide

/-- C9 (amended): RPC failures propagated with `?` surface as typed results,
but an empty coin list and a metadata response carrying no data are unwrapped
with `unwrap()`, so on those inputs the program panics instead of returning a
typed error. -/
theorem typed_errors_and_panics :
    (∀ env e, env.coins = Except.error e →
      mainTx env = Outcome.typedError e) ∧
    (∀ env, env.coins = Except.ok [] → mainTx env = Outcome.panicked) ∧
    (∀ env coin rest, env.coins = Except.ok (coin :: rest) →
      env.objects object_id = Except.ok ⟨none⟩ →
      mainTx env = Outcome.panicked) ∧
    (∀ env coin rest data, env.coins = Except.ok (coin :: rest) →
      env.objects object_id = Except.ok ⟨some data⟩ →
      env.objects game_card_id = Except.ok ⟨none⟩ →
      mainTx env = Outcome.panicked) ∧
    (∀ env coin rest e, env.coins = Except.ok (coin :: rest) →
      env.objects object_id = Except.error e →
      mainTx env = Outcome.typedError e) := by
  refine ⟨?_, ?_, ?_, ?_, ?_⟩
  · intro env e h
    obtain ⟨s, coins, objects, gp⟩ := env
    simp only at h
    subst h
    rfl
  · intro env h
    obtain ⟨s, coins, objects, gp⟩ := env
    simp only at h
    subst h
    rfl
  · intro env coin rest h ho
    obtain ⟨s, coins, objects, gp⟩ := env
    simp only at h ho
    subst h
    simp [mainTx, ho]
  · intro env coin rest data h ho hc
    obtain ⟨s, coins, objects, gp⟩ := env
    simp only at h ho hc
    subst h
    simp [mainTx, ho, hc]
  · intro env coin rest e h ho
    obtain ⟨s, coins, objects, gp⟩ := env
    simp only at h ho
    subst h
    simp [mainTx, ho]

/-- Closed instance of `typed_errors_and_panics`: the empty-coin-list panic
on `envEmptyCoins`, and a typed error when the coin query itself fails. -/
theorem typed_errors_and_panics_witness :
    mainTx envEmptyCoins = Outcome.panicked ∧
    mainTx ⟨1, Except.error RpcError.unreadable, envC.objects, Except.ok 750⟩ =
      Outcome.typedError RpcError.unreadable :=
  ⟨typed_errors_and_panics.2.1 envEmptyCoins rfl,
   typed_errors_and_panics.1
     ⟨1, Except.error RpcError.unreadable, envC.objects, Except.ok 750⟩
     RpcError.unreadable rfl⟩

/-- C10: the shared input at index 0 carries id `game_room_id`, but its
`initial_shared_version` is the version from the metadata of `object_id` —
a different object, the one the program actually queries; the ids are
distinct, and the metadata stored under `game_room_id` is never consulted
(two environments differing only there produce identical outcomes). -/
theorem shared_version_from_other_object :
    (game_room_id ≠ object_id ∧ game_room_id ≠ game_card_id) ∧
    (∀ env td, mainTx env = Outcome.ok td →
      ∃ resp data,
        env.objects object_id = Except.ok resp ∧ resp.data = some data ∧
        td.pt.inputs.get? 0 =
          some (CallArg.object
            (ObjectArg.sharedObject game_room_id data.version true))) ∧
    (∀ env env' : Env, env.sender = env'.sender → env.coins = env'.coins →
      env.reference_gas_price = env'.reference_gas_price →
      (∀ oid, oid ≠ game_room_id → env.objects oid = env'.objects oid) →
      mainTx env = mainTx env') := by
  refine ⟨by decide, ?_, ?_⟩
  · intro env td h
    obtain ⟨coin, rest, data, card, gp, r1, r2, hcoins, ho1, hd1, ho2, hd2,
      hgp, htd⟩ := mainTx_ok_cases env td h
    subst htd
    exact ⟨r1, data, ho1, hd1, rfl⟩
  · intro env env' hs hc hg ho
    obtain ⟨s, coins, objects, gp⟩ := env
    obtain ⟨s', coins', objects', gp'⟩ := env'
    simp only at hs hc hg ho
    subst hs
    subst hc
    subst hg
    have h1 : objects object_id = objects' object_id :=
      ho object_id (by decide)
    have h2 : objects game_card_id = objects' game_card_id :=
      ho game_card_id (by decide)
    simp only [mainTx, h1, h2]

/-- Closed instance of `shared_version_from_other_object`: on `envC` the
version of the shared input is the 42 recorded under `object_id`, and the
outcome agrees with `envC2`, which differs from `envC` only in the metadata
stored under `game_room_id`. -/
theorem shared_version_from_other_object_witness :
    (∃ resp data,
      envC.objects object_id = Except.ok resp ∧ resp.data = some data ∧
      tdC.pt.inputs.get? 0 =
        some (CallArg.object
          (ObjectArg.sharedObject game_room_id data.version true))) ∧
    mainTx envC = mainTx envC2 :=
  ⟨shared_version_from_other_object.2.1 envC tdC (by decide),
   shared_version_from_other_object.2.2 envC envC2 rfl rfl rfl
     (by intro oid h; simp [envC, envC2, h])⟩
